import Mathlib

/-! # TFTP message codec (`ch06/tftp/types.go`)

A shallow embedding of the four message types of the package `tftp`
(`ReadReq`, `Data`, `Ack`, `Err`) with their `MarshalBinary` and
`UnmarshalBinary` methods, and of the two handlers of the package
`middleware` (`ch09/middleware`), followed by theorems about them.

Conventions of the embedding:

* a Go `[]byte` and a Go `string` are both a `List Byte`, a byte being a
  `Fin 256`;
* a `uint16` is a `Nat`; every place where Go truncates to 16 or 8 bits is an
  explicit `% 65536` or `% 256`;
* a method with a pointer receiver returns the receiver after the call next to
  its Go result, so that every assignment to a field is visible;
* a Go `([]byte, error)` result is an `Except GoError (List Byte)`, a Go `error`
  result is an `Option GoError` (`none` is `nil`).
-/

namespace Tftp

/-! ## Values of the Go runtime and standard library used by the codec -/

/-- A byte of a Go slice or string. -/
abbrev Byte := Fin 256

/-- The Go conversion `byte(n)`: the low eight bits of `n`. -/
def byte (n : Nat) : Byte := ⟨n % 256, Nat.mod_lt n (by decide)⟩

/-- The error values the codec returns: the two sentinels of package `io`
that `binary.Read` and `ReadString` report, and `errors.New msg`. -/
inductive GoError where
  | EOF
  | ErrUnexpectedEOF
  | New (msg : String)
deriving DecidableEq, Repr

deriving instance DecidableEq for Except

/-- The call `errors.Is(err, io.EOF)` for the error values of this model. -/
def isEOF (err : GoError) : Bool :=
  match err with
  | GoError.EOF => true
  | _ => false

/-- The call `binary.Write(b, binary.BigEndian, v)` for a 16-bit `v` on a
`bytes.Buffer` holding `b`: the buffer afterwards and the error, which a
`bytes.Buffer` never reports. -/
def binaryWrite (b : List Byte) (v : Nat) : List Byte × Option GoError :=
  (b ++ [byte (v / 256), byte v], none)

/-- The call `b.WriteString(s)` on a `bytes.Buffer` holding `b`: the buffer
afterwards, the count and the error (always `nil`). -/
def WriteString (b : List Byte) (s : List Byte) : List Byte × Nat × Option GoError :=
  (b ++ s, s.length, none)

/-- The call `b.WriteByte(c)` on a `bytes.Buffer` holding `b`. -/
def WriteByte (b : List Byte) (c : Byte) : List Byte × Option GoError :=
  (b ++ [c], none)

/-- The call `binary.Read(r, binary.BigEndian, &data)` for a 16-bit `data` on
a reader whose unread bytes are `r`: the unread bytes afterwards, the value of
`data` afterwards and the error. With fewer than two bytes left nothing is
stored: no byte at all gives `io.EOF`, a single byte `io.ErrUnexpectedEOF`. -/
def binaryRead (r : List Byte) (data : Nat) : List Byte × Nat × Option GoError :=
  match r with
  | [] => ([], data, some GoError.EOF)
  | [_] => ([], data, some GoError.ErrUnexpectedEOF)
  | hi :: lo :: rest => (rest, hi.val * 256 + lo.val, none)

/-- The call `r.ReadString(delim)` on a `bytes.Buffer` whose unread bytes are
`r`: the string read (up to and including the first `delim`), the error and
the unread bytes afterwards. Without a `delim` the whole rest is returned with
`io.EOF`. -/
def ReadString (r : List Byte) (delim : Byte) : List Byte × Option GoError × List Byte :=
  match r with
  | [] => ([], some GoError.EOF, [])
  | c :: cs =>
    if c = delim then ([c], none, cs)
    else
      let (line, err, rest) := ReadString cs delim
      (c :: line, err, rest)

/-- The function `strings.TrimSuffix`. -/
def TrimSuffix (s suffix : List Byte) : List Byte :=
  if suffix.isSuffixOf s then s.take (s.length - suffix.length) else s

/-- The function `strings.ToLower`. A string of ASCII bytes only is lowered
byte by byte; any other string goes to `strings.Map(unicode.ToLower, s)`,
whose Unicode tables are not part of this development and are taken as the
parameter `unicodeMap`. -/
def ToLower (unicodeMap : List Byte → List Byte) (s : List Byte) : List Byte :=
  if s.all (fun c => decide (c.val < 128)) then
    s.map (fun c => if 65 ≤ c.val ∧ c.val ≤ 90 then c + 32 else c)
  else unicodeMap s

/-- An `io.Reader` used as a payload source: the bytes it still holds and the
error it reports once they are used up (`io.EOF` for a source that simply
ends). -/
structure Reader where
  buf : List Byte
  fin : GoError
deriving DecidableEq, Repr

/-- The call `bytes.NewBuffer(p)` seen as an `io.Reader`. -/
def NewBuffer (p : List Byte) : Reader := { buf := p, fin := GoError.EOF }

/-- The call `io.CopyN(b, src, n)` on a `bytes.Buffer` holding `b`: the buffer
afterwards, the source afterwards, the number of bytes copied and the error.
The error is `nil` exactly when `n` bytes were copied; a source that runs out
earlier reports its final error. -/
def CopyN (b : List Byte) (src : Reader) (n : Nat) :
    List Byte × Reader × Nat × Option GoError :=
  let chunk := src.buf.take n
  let src1 : Reader := { src with buf := src.buf.drop n }
  if chunk.length = n then (b ++ chunk, src1, chunk.length, none)
  else (b ++ chunk, src1, chunk.length, some src.fin)

/-! ## Constants -/

/-- The maximum supported datagram size. -/
def DatagramSize : Nat := 516

/-- The `DatagramSize` minus a 4-byte header. -/
def BlockSize : Nat := DatagramSize - 4

/-- The operation codes (`OpCode`, a `uint16`); 2, the write request, is not
supported. -/
def OpRRQ : Nat := 1
def OpData : Nat := 3
def OpAck : Nat := 4
def OpErr : Nat := 5

/-- The error codes (`ErrCode`, a `uint16`). -/
def ErrUnknown : Nat := 0
def ErrNotFound : Nat := 1
def ErrAccessViolation : Nat := 2
def ErrDiskFull : Nat := 3
def ErrIllegalOp : Nat := 4
def ErrUnknownID : Nat := 5
def ErrFileExists : Nat := 6
def ErrNoUser : Nat := 7

/-- The string constant `"octet"`. -/
def octet : List Byte := [111, 99, 116, 101, 116]

/-! ## ReadReq -/

/-- The type `ReadReq`; both fields are Go strings. -/
structure ReadReq where
  Filename : List Byte
  Mode : List Byte
deriving DecidableEq, Repr

/-- The method `func (q ReadReq) MarshalBinary() ([]byte, error)`. The call
`b.Grow(cap)` only reserves capacity and has no counterpart here. -/
def ReadReq.MarshalBinary (q : ReadReq) : Except GoError (List Byte) :=
  let mode := if q.Mode ≠ [] then q.Mode else octet
  let b : List Byte := []
  -- Operation code
  let (b, err) := binaryWrite b OpRRQ
  match err with
  | some err => Except.error err
  | none =>
  -- Filename
  let (b, _, err) := WriteString b q.Filename
  match err with
  | some err => Except.error err
  | none =>
  -- 0-byte filename string terminator
  let (b, err) := WriteByte b 0
  match err with
  | some err => Except.error err
  | none =>
  -- Mode
  let (b, _, err) := WriteString b mode
  match err with
  | some err => Except.error err
  | none =>
  -- 0-byte mode string terminator
  let (b, err) := WriteByte b 0
  match err with
  | some err => Except.error err
  | none => Except.ok b

/-- The method `func (q *ReadReq) UnmarshalBinary(p []byte) error`: the
receiver after the call and the error. -/
def ReadReq.UnmarshalBinary (unicodeMap : List Byte → List Byte) (q : ReadReq)
    (p : List Byte) : ReadReq × Option GoError :=
  let r := p
  -- Operation code
  let (r, code, err) := binaryRead r 0
  match err with
  | some err => (q, some err)
  | none =>
  if code ≠ OpRRQ then (q, some (GoError.New "invalid RRQ"))
  else
  -- Filename + 0-byte terminator
  let (s, err, r) := ReadString r 0
  let q := { q with Filename := s }
  match err with
  | some _ => (q, some (GoError.New "invalid RRQ"))
  | none =>
  -- Remove 0-byte terminator from filename
  let q := { q with Filename := TrimSuffix q.Filename [0] }
  if q.Filename.length = 0 then (q, some (GoError.New "invalid RRQ"))
  else
  -- Mode + 0-byte terminator
  let (s, err, _) := ReadString r 0
  let q := { q with Mode := s }
  match err with
  | some _ => (q, some (GoError.New "invalid RRQ"))
  | none =>
  -- Remove 0-byte terminator from mode
  let q := { q with Mode := TrimSuffix q.Mode [0] }
  if q.Mode.length = 0 then (q, some (GoError.New "invalid RRQ"))
  else
  let actual := ToLower unicodeMap q.Mode
  if actual ≠ octet then (q, some (GoError.New "only binary transfers supported"))
  else (q, none)

/-! ## Data -/

/-- The type `Data`: the block counter and the payload source. -/
structure Data where
  Block : Nat
  Payload : Reader
deriving DecidableEq, Repr

/-- The method `func (d *Data) MarshalBinary() ([]byte, error)`: the receiver
after the call (counter advanced, source read) and the result. -/
def Data.MarshalBinary (d : Data) : Data × Except GoError (List Byte) :=
  let b : List Byte := []
  -- block numbers increment starting from 1
  let d := { d with Block := (d.Block + 1) % 65536 }
  -- Operation code
  let (b, err) := binaryWrite b OpData
  match err with
  | some err => (d, Except.error err)
  | none =>
  -- Block #
  let (b, err) := binaryWrite b d.Block
  match err with
  | some err => (d, Except.error err)
  | none =>
  -- Write up to BlockSize worth of bytes
  let (b, src, _, err) := CopyN b d.Payload BlockSize
  let d := { d with Payload := src }
  match err with
  | some err => if !isEOF err then (d, Except.error err) else (d, Except.ok b)
  | none => (d, Except.ok b)

/-- The method `func (d *Data) UnmarshalBinary(p []byte) error`: the receiver
after the call and the error. The slices `p[:2]`, `p[2:4]` and `p[4:]` are
`p.take 2`, `(p.take 4).drop 2` and `p.drop 4`. -/
def Data.UnmarshalBinary (d : Data) (p : List Byte) : Data × Option GoError :=
  if p.length < 4 ∨ p.length > DatagramSize then (d, some (GoError.New "invalid DATA"))
  else
  -- Operation code
  let (_, opcode, err) := binaryRead (p.take 2) 0
  if err ≠ none ∨ opcode ≠ OpData then (d, some (GoError.New "invalid DATA"))
  else
  -- Block #
  let (_, block, err) := binaryRead ((p.take 4).drop 2) d.Block
  let d := { d with Block := block }
  match err with
  | some _ => (d, some (GoError.New "invalid DATA"))
  | none =>
  -- Data
  let d := { d with Payload := NewBuffer (p.drop 4) }
  (d, none)

/-! ## Ack -/

/-- The type `Ack`, a `uint16` block number. -/
abbrev Ack := Nat

/-- The method `func (a Ack) MarshalBinary() ([]byte, error)`. -/
def Ack.MarshalBinary (a : Ack) : Except GoError (List Byte) :=
  let b : List Byte := []
  -- Operation code
  let (b, err) := binaryWrite b OpAck
  match err with
  | some err => Except.error err
  | none =>
  -- Block #
  let (b, err) := binaryWrite b a
  match err with
  | some err => Except.error err
  | none => Except.ok b

/-- The method `func (a *Ack) UnmarshalBinary(p []byte) error`: the receiver
after the call and the error. -/
def Ack.UnmarshalBinary (a : Ack) (p : List Byte) : Ack × Option GoError :=
  let r := p
  -- Operation code
  let (r, code, err) := binaryRead r 0
  match err with
  | some err => (a, some err)
  | none =>
  if code ≠ OpAck then (a, some (GoError.New "invalid ACK"))
  else
  -- Block #
  let (_, a, err) := binaryRead r a
  (a, err)

/-! ## Err -/

/-- The type `Err`: the error code and the message. -/
structure Err where
  Error : Nat
  Message : List Byte
deriving DecidableEq, Repr

/-- The method `func (e Err) MarshalBinary() ([]byte, error)`. -/
def Err.MarshalBinary (e : Err) : Except GoError (List Byte) :=
  let b : List Byte := []
  -- Operation code
  let (b, err) := binaryWrite b OpErr
  match err with
  | some err => Except.error err
  | none =>
  -- Error code
  let (b, err) := binaryWrite b e.Error
  match err with
  | some err => Except.error err
  | none =>
  -- Message
  let (b, _, err) := WriteString b e.Message
  match err with
  | some err => Except.error err
  | none =>
  -- 0-byte terminator
  let (b, err) := WriteByte b 0
  match err with
  | some err => Except.error err
  | none => Except.ok b

/-- The method `func (e *Err) UnmarshalBinary(p []byte) error`: the receiver
after the call and the error. -/
def Err.UnmarshalBinary (e : Err) (p : List Byte) : Err × Option GoError :=
  let r := p
  -- Operation code
  let (r, code, err) := binaryRead r 0
  match err with
  | some _ => (e, some (GoError.New "invalid ERROR"))
  | none =>
  if code ≠ OpErr then (e, some (GoError.New "invalid ERROR"))
  else
  -- Error code
  let (r, ec, err) := binaryRead r e.Error
  let e := { e with Error := ec }
  match err with
  | some _ => (e, some (GoError.New "invalid ERROR"))
  | none =>
  -- Message + 0-byte terminator
  let (msg, err, _) := ReadString r 0
  let e := { e with Message := msg }
  let e := { e with Message := TrimSuffix e.Message [0] }
  (e, err)

/-! ## Successive calls of `Data.MarshalBinary` on one instance -/

/-- The instance `d` after `k` successive calls of `d.MarshalBinary()`. -/
def Data.afterCalls (d : Data) : Nat → Data
  | 0 => d
  | k + 1 => (Data.MarshalBinary (Data.afterCalls d k)).1

/-- The result of call number `k + 1` in a row of successive calls of
`d.MarshalBinary()`. -/
def Data.nthCall (d : Data) (k : Nat) : Except GoError (List Byte) :=
  (Data.MarshalBinary (Data.afterCalls d k)).2

/-- The payload of an encoded DATA packet, the bytes after its 4-byte header
(no bytes when the encode returned an error). -/
def payloadOf (r : Except GoError (List Byte)) : List Byte :=
  match r with
  | Except.ok out => out.drop 4
  | Except.error _ => []

end Tftp

/-! # HTTP middleware (`ch09/middleware`)

The two handlers of the package `middleware`. A handler is embedded as the
list of calls it makes on the response, in order. -/

namespace Middleware

open Tftp (Byte)

/-- A call a middleware handler makes: `next.ServeHTTP(w, r)`, or
`http.Error(w, "Not Found", http.StatusNotFound)`. -/
inductive Call where
  | ServeNext
  | NotFound
deriving DecidableEq, Repr

/-- The function `strings.HasPrefix`. -/
def HasPrefix (s pfx : List Byte) : Bool := pfx.isPrefixOf s

/-- The call `strings.SplitSeq(s, sep)` for a separator `sep` of one byte,
as the list of the substrings it yields: the pieces of `s` between the
separators, in order (a string without separator is its only piece). -/
def SplitSeq (s : List Byte) (sep : Byte) : List (List Byte) :=
  match s with
  | [] => [[]]
  | c :: cs =>
    if c = sep then [] :: SplitSeq cs sep
    else
      match SplitSeq cs sep with
      | [] => [[c]]
      | seg :: segs => (c :: seg) :: segs

/-- The byte `'/'`. -/
def slash : Byte := 47

/-- The handler returned by `AllowPrefix(prefix, next)`, run on a request
whose `r.URL.Path` is `urlPath`: the calls it makes, in order. The function
`path.Clean` of the standard library is the parameter `Clean`. -/
def AllowPrefix (Clean : List Byte → List Byte) (pfx : List Byte) (urlPath : List Byte) :
    List Call :=
  let w : List Call := []
  let w := (SplitSeq (Clean urlPath) slash).foldl
    (fun w p => if HasPrefix p pfx then w ++ [Call.ServeNext] else w) w
  w ++ [Call.NotFound]

/-- The handler returned by `RestrictPrefix(prefix, next)`, run on a request
whose `r.URL.Path` is `urlPath`: the calls it makes, in order. The function
`path.Clean` of the standard library is the parameter `Clean`. -/
def RestrictPrefix (Clean : List Byte → List Byte) (pfx : List Byte) (urlPath : List Byte) :
    List Call :=
  let w : List Call := []
  let w := (SplitSeq (Clean urlPath) slash).foldl
    (fun w p => if HasPrefix p pfx then w ++ [Call.NotFound] else w) w
  w ++ [Call.ServeNext]

end Middleware

namespace Tftp

/-! # Theorems -/

/-! ## Lemmas on the library functions -/

theorem ReadString_append (d : Byte) (f rest : List Byte) (h : d ∉ f) :
    ReadString (f ++ d :: rest) d = (f ++ [d], none, rest) := by
  induction f with
  | nil => simp [ReadString]
  | cons c cs ih =>
    have hc : c ≠ d := fun e => h (by simp [e])
    have hcs : d ∉ cs := fun e => h (by simp [e])
    simp [ReadString, hc, ih hcs]

theorem ReadString_of_not_mem (d : Byte) (f : List Byte) (h : d ∉ f) :
    ReadString f d = (f, some GoError.EOF, []) := by
  induction f with
  | nil => simp [ReadString]
  | cons c cs ih =>
    have hc : c ≠ d := fun e => h (by simp [e])
    have hcs : d ∉ cs := fun e => h (by simp [e])
    simp [ReadString, hc, ih hcs]

theorem TrimSuffix_append_singleton (f : List Byte) (c : Byte) :
    TrimSuffix (f ++ [c]) [c] = f := by
  have h : List.isSuffixOf [c] (f ++ [c]) = true := by
    rw [List.isSuffixOf_iff_suffix]
    exact List.suffix_append f [c]
  simp [TrimSuffix, h]

/-! ## ReadReq -/

/-- The bytes `ReadReq.MarshalBinary` returns. -/
theorem readReq_marshal_eq (q : ReadReq) :
    ReadReq.MarshalBinary q
      = Except.ok ([0, 1] ++ q.Filename ++ [0]
          ++ (if q.Mode = [] then octet else q.Mode) ++ [0]) := by
  simp [ReadReq.MarshalBinary, binaryWrite, WriteString, WriteByte, OpRRQ, byte]

/-- Decoding a well-formed request: only the mode check remains. -/
theorem readReq_unmarshal_fields (unicodeMap : List Byte → List Byte) (q : ReadReq)
    (f m rest : List Byte) (hf : f ≠ []) (hf0 : (0 : Byte) ∉ f)
    (hm : m ≠ []) (hm0 : (0 : Byte) ∉ m) :
    ReadReq.UnmarshalBinary unicodeMap q ([0, 1] ++ f ++ [0] ++ m ++ [0] ++ rest)
      = if ToLower unicodeMap m ≠ octet then
          (⟨f, m⟩, some (GoError.New "only binary transfers supported"))
        else (⟨f, m⟩, none) := by
  have e : ([0, 1] ++ f ++ [0] ++ m ++ [0] ++ rest : List Byte)
      = 0 :: 1 :: (f ++ 0 :: (m ++ 0 :: rest)) := by simp
  rw [e]
  simp [ReadReq.UnmarshalBinary, binaryRead, OpRRQ, ReadString_append, hf0, hm0,
    TrimSuffix_append_singleton, hf, hm]

/-- The string `"octet"` is its own lower-case form. -/
theorem ToLower_octet (unicodeMap : List Byte → List Byte) :
    ToLower unicodeMap octet = octet := by
  unfold ToLower
  rw [if_pos (by decide)]
  decide

/-- C1. ReadReq round trip: for a non-empty filename without a zero byte and a
mode without a zero byte whose lower-case form is "octet" (such a mode is
non-empty), `MarshalBinary` returns bytes from which `UnmarshalBinary`, on any
receiver, succeeds and stores the same filename and the same mode, its case
kept. -/
theorem readReq_roundtrip (unicodeMap : List Byte → List Byte) (q0 : ReadReq)
    (filename mode : List Byte)
    (hf : filename ≠ []) (hf0 : (0 : Byte) ∉ filename)
    (hm0 : (0 : Byte) ∉ mode) (hoct : ToLower unicodeMap mode = octet) :
    ∃ bs, ReadReq.MarshalBinary ⟨filename, mode⟩ = Except.ok bs
      ∧ ReadReq.UnmarshalBinary unicodeMap q0 bs = (⟨filename, mode⟩, none) := by
  have hm : mode ≠ [] := by
    intro e
    rw [e] at hoct
    simp [ToLower, octet] at hoct
  refine ⟨_, readReq_marshal_eq _, ?_⟩
  have h := readReq_unmarshal_fields unicodeMap q0 filename mode [] hf hf0 hm hm0
  simp only [List.append_nil] at h
  simp only [if_neg hm]
  rw [h]
  simp [hoct]

theorem readReq_roundtrip_witness :
    ∃ bs, ReadReq.MarshalBinary ⟨[97], [79, 99, 116, 69, 116]⟩ = Except.ok bs
      ∧ ReadReq.UnmarshalBinary id ⟨[1], [0]⟩ bs = (⟨[97], [79, 99, 116, 69, 116]⟩, none) :=
  readReq_roundtrip id ⟨[1], [0]⟩ [97] [79, 99, 116, 69, 116]
    (by decide) (by decide) (by decide) (by decide)

/-- C5. ReadReq encoding layout and default mode: `MarshalBinary` never fails
and returns the opcode 1, the filename, a zero byte, the mode ("octet" when
the `Mode` field is empty, the field otherwise) and a zero byte; and decoding
the encoding of a request with a non-empty zero-free filename and an empty
mode succeeds with the mode "octet". -/
theorem readReq_marshal_layout (q : ReadReq) :
    ReadReq.MarshalBinary q
        = Except.ok ([0, 1] ++ q.Filename ++ [0]
            ++ (if q.Mode = [] then octet else q.Mode) ++ [0])
      ∧ ∀ (unicodeMap : List Byte → List Byte) (q0 : ReadReq),
          q.Filename ≠ [] → (0 : Byte) ∉ q.Filename → q.Mode = [] →
          ∃ bs, ReadReq.MarshalBinary q = Except.ok bs
            ∧ ReadReq.UnmarshalBinary unicodeMap q0 bs = (⟨q.Filename, octet⟩, none) := by
  refine ⟨readReq_marshal_eq q, ?_⟩
  intro unicodeMap q0 hf hf0 hm
  refine ⟨_, readReq_marshal_eq q, ?_⟩
  have h := readReq_unmarshal_fields unicodeMap q0 q.Filename octet [] hf hf0
    (by decide) (by decide)
  simp only [List.append_nil] at h
  simp only [if_pos hm]
  rw [h]
  simp [ToLower_octet]

theorem readReq_marshal_layout_witness :
    ReadReq.MarshalBinary ⟨[97, 46, 116, 120, 116], []⟩
        = Except.ok [0, 1, 97, 46, 116, 120, 116, 0, 111, 99, 116, 101, 116, 0]
      ∧ ∃ bs, ReadReq.MarshalBinary ⟨[97, 46, 116, 120, 116], []⟩ = Except.ok bs
          ∧ ReadReq.UnmarshalBinary id ⟨[], []⟩ bs = (⟨[97, 46, 116, 120, 116], octet⟩, none) :=
  ⟨(readReq_marshal_layout ⟨[97, 46, 116, 120, 116], []⟩).1,
   (readReq_marshal_layout ⟨[97, 46, 116, 120, 116], []⟩).2 id ⟨[], []⟩
      (by decide) (by decide) rfl⟩

/-- C10. ReadReq decode accepts the mode case-insensitively and stores the
fields as transmitted: on the opcode 1, a non-empty zero-free filename `f`, a
zero byte, a non-empty zero-free mode `m` whose lower-case form is "octet",
and a zero byte, `UnmarshalBinary` succeeds with `Filename = f` and
`Mode = m`. -/
theorem readReq_decode_mode_as_sent (unicodeMap : List Byte → List Byte) (q0 : ReadReq)
    (f m : List Byte) (hf : f ≠ []) (hf0 : (0 : Byte) ∉ f)
    (hm : m ≠ []) (hm0 : (0 : Byte) ∉ m) (hoct : ToLower unicodeMap m = octet) :
    ReadReq.UnmarshalBinary unicodeMap q0 ([0, 1] ++ f ++ [0] ++ m ++ [0])
      = (⟨f, m⟩, none) := by
  have h := readReq_unmarshal_fields unicodeMap q0 f m [] hf hf0 hm hm0
  simp only [List.append_nil] at h
  rw [h]
  simp [hoct]

/-- The buffer 0x00 0x01 'a' 0x00 "OCTET" 0x00 decodes to the filename "a" and
the mode "OCTET". -/
theorem readReq_decode_mode_as_sent_witness :
    ReadReq.UnmarshalBinary id ⟨[], []⟩ [0, 1, 97, 0, 79, 67, 84, 69, 84, 0]
      = (⟨[97], [79, 67, 84, 69, 84]⟩, none) :=
  readReq_decode_mode_as_sent id ⟨[], []⟩ [97] [79, 67, 84, 69, 84]
    (by decide) (by decide) (by decide) (by decide) (by decide)

/-! ## Data -/

/-- The receiver and the result of `Data.MarshalBinary`, in closed form. -/
theorem data_marshal_eq (d : Data) :
    Data.MarshalBinary d
      = (⟨(d.Block + 1) % 65536, ⟨d.Payload.buf.drop 512, d.Payload.fin⟩⟩,
         if d.Payload.buf.length < 512 ∧ d.Payload.fin ≠ GoError.EOF then
           Except.error d.Payload.fin
         else
           Except.ok ([0, 3, byte ((d.Block + 1) % 65536 / 256), byte ((d.Block + 1) % 65536)]
             ++ d.Payload.buf.take 512)) := by
  by_cases hlen : d.Payload.buf.length < 512
  · have h1 : ¬ (512 ≤ d.Payload.buf.length) := by omega
    by_cases hfin : d.Payload.fin = GoError.EOF
    · simp [Data.MarshalBinary, binaryWrite, CopyN, OpData, BlockSize, DatagramSize, byte,
        isEOF, hlen, h1, hfin]
    · have h2 : isEOF d.Payload.fin = false := by
        cases hd : d.Payload.fin <;> simp_all [isEOF]
      simp [Data.MarshalBinary, binaryWrite, CopyN, OpData, BlockSize, DatagramSize, byte,
        hlen, h1, hfin, h2]
  · have h1 : 512 ≤ d.Payload.buf.length := by omega
    simp [Data.MarshalBinary, binaryWrite, CopyN, OpData, BlockSize, DatagramSize, byte,
      hlen, h1]

/-- The receiver and the result of `Data.UnmarshalBinary`, in closed form. -/
theorem data_unmarshal_eq (d : Data) (p : List Byte) :
    Data.UnmarshalBinary d p
      = if 4 ≤ p.length ∧ p.length ≤ 516 ∧ p.take 2 = [0, 3] then
          (⟨(p.getD 2 0).val * 256 + (p.getD 3 0).val, NewBuffer (p.drop 4)⟩, none)
        else (d, some (GoError.New "invalid DATA")) := by
  match p with
  | [] => simp [Data.UnmarshalBinary]
  | [_] => simp [Data.UnmarshalBinary]
  | [_, _] => simp [Data.UnmarshalBinary]
  | [_, _, _] => simp [Data.UnmarshalBinary]
  | a :: b :: c :: e :: rest =>
    have h0 : ¬ (rest.length + 1 + 1 + 1 + 1 < 4) := by omega
    have h3 : ((3 : Byte) : Nat) = 3 := rfl
    by_cases hlen : rest.length + 4 ≤ 516
    · have h1 : ¬ (516 < rest.length + 4) := by omega
      by_cases hop : a = 0 ∧ b = 3
      · obtain ⟨ha, hb⟩ := hop
        subst ha hb
        simp [Data.UnmarshalBinary, binaryRead, DatagramSize, OpData, h0, h1, h3, hlen]
      · have hne : ¬ (a.val * 256 + b.val = 3) := by
          intro h
          apply hop
          have hb := b.isLt
          constructor
          · apply Fin.ext
            simp only [Fin.val_zero]
            omega
          · apply Fin.ext
            rw [h3]
            omega
        simp [Data.UnmarshalBinary, binaryRead, DatagramSize, OpData, h0, h1, hlen, hop, hne]
    · have h1 : 516 < rest.length + 4 := by omega
      simp [Data.UnmarshalBinary, DatagramSize, h0, h1, hlen]

/-- A 16-bit value is recovered from its two big-endian bytes. -/
theorem byte_hi_lo (v : Nat) (hv : v < 65536) :
    (byte (v / 256)).val * 256 + (byte v).val = v := by
  simp only [byte]
  omega

/-- C2. Data round trip: when the payload source holds at most 512 bytes and
ends with end-of-input, `MarshalBinary` succeeds, and `UnmarshalBinary` of its
output, on any receiver, succeeds with a payload holding exactly those bytes
and with the block number `(b + 1) mod 65536`, which is also the `Block` field
of the encoding instance after the call; from the counter 65535 the block
number written and read back is 0. -/
theorem data_roundtrip (d d0 : Data) (hn : d.Payload.buf.length ≤ 512)
    (hfin : d.Payload.fin = GoError.EOF) :
    ∃ out, (Data.MarshalBinary d).2 = Except.ok out
      ∧ Data.UnmarshalBinary d0 out
          = (⟨(d.Block + 1) % 65536, NewBuffer d.Payload.buf⟩, none)
      ∧ (Data.MarshalBinary d).1.Block = (d.Block + 1) % 65536
      ∧ (d.Block = 65535 →
          (Data.UnmarshalBinary d0 out).1.Block = 0 ∧ out.take 4 = [0, 3, 0, 0]) := by
  have hB : (d.Block + 1) % 65536 < 65536 := Nat.mod_lt _ (by decide)
  have hdec : Data.UnmarshalBinary d0
      ([0, 3, byte ((d.Block + 1) % 65536 / 256), byte ((d.Block + 1) % 65536)]
        ++ d.Payload.buf)
      = (⟨(d.Block + 1) % 65536, NewBuffer d.Payload.buf⟩, none) := by
    rw [data_unmarshal_eq]
    have hl : d.Payload.buf.length + 4 ≤ 516 := by omega
    simp [hl, byte_hi_lo _ hB]
  refine ⟨[0, 3, byte ((d.Block + 1) % 65536 / 256), byte ((d.Block + 1) % 65536)]
      ++ d.Payload.buf, ?_, hdec, ?_, ?_⟩
  · rw [data_marshal_eq]
    simp [hfin, List.take_of_length_le hn]
  · rw [data_marshal_eq]
  · intro hb
    rw [hdec, hb]
    exact ⟨rfl, rfl⟩

theorem data_roundtrip_witness :
    ∃ out, (Data.MarshalBinary ⟨65535, NewBuffer [104, 105]⟩).2 = Except.ok out
      ∧ Data.UnmarshalBinary ⟨7, NewBuffer [1]⟩ out
          = (⟨(65535 + 1) % 65536, NewBuffer [104, 105]⟩, none)
      ∧ (Data.MarshalBinary ⟨65535, NewBuffer [104, 105]⟩).1.Block = (65535 + 1) % 65536
      ∧ (65535 = 65535 →
          (Data.UnmarshalBinary ⟨7, NewBuffer [1]⟩ out).1.Block = 0
            ∧ out.take 4 = [0, 3, 0, 0]) :=
  data_roundtrip ⟨65535, NewBuffer [104, 105]⟩ ⟨7, NewBuffer [1]⟩ (by decide) rfl

/-- C7. Data decode acceptance: `UnmarshalBinary` succeeds exactly on the
buffers of 4 to 516 bytes that begin with 0x00 0x03, and every other buffer
gives "invalid DATA"; on success `Block` is `256 * p[2] + p[3]` and the payload
holds `p[4..]`, of length `len(p) - 4`. So a buffer of 3 bytes and a buffer of
517 bytes fail, and a buffer of 4 bytes with opcode 3 succeeds with an empty
payload. -/
theorem data_unmarshal_accepts_iff (d : Data) (p : List Byte) :
    ((Data.UnmarshalBinary d p).2 = none
        ↔ 4 ≤ p.length ∧ p.length ≤ 516 ∧ p.take 2 = [0, 3])
      ∧ ((Data.UnmarshalBinary d p).2 = none
          ∨ (Data.UnmarshalBinary d p).2 = some (GoError.New "invalid DATA"))
      ∧ ((Data.UnmarshalBinary d p).2 = none →
          (Data.UnmarshalBinary d p).1.Block = 256 * (p.getD 2 0).val + (p.getD 3 0).val
            ∧ (Data.UnmarshalBinary d p).1.Payload = NewBuffer (p.drop 4)
            ∧ (Data.UnmarshalBinary d p).1.Payload.buf.length = p.length - 4)
      ∧ (p.length = 3 → (Data.UnmarshalBinary d p).2 = some (GoError.New "invalid DATA"))
      ∧ (p.length = 517 → (Data.UnmarshalBinary d p).2 = some (GoError.New "invalid DATA"))
      ∧ (p.length = 4 → p.take 2 = [0, 3] →
          (Data.UnmarshalBinary d p).2 = none
            ∧ (Data.UnmarshalBinary d p).1.Payload.buf = []) := by
  rw [data_unmarshal_eq]
  by_cases h : 4 ≤ p.length ∧ p.length ≤ 516 ∧ p.take 2 = [0, 3]
  · rw [if_pos h]
    obtain ⟨h4, h516, hop⟩ := h
    refine ⟨by simp [h4, h516, hop], Or.inl rfl, fun _ => ⟨?_, rfl, ?_⟩, ?_, ?_, ?_⟩
    · show (p.getD 2 0).val * 256 + (p.getD 3 0).val = _
      omega
    · simp [NewBuffer]
    · intro h3; omega
    · intro h517; omega
    · intro hl _
      refine ⟨rfl, ?_⟩
      simp [NewBuffer, List.drop_eq_nil_iff, hl]
  · rw [if_neg h]
    refine ⟨by simp [h], Or.inr rfl, fun hc => by simp at hc, fun _ => rfl, fun _ => rfl, ?_⟩
    intro hl hop
    exact absurd ⟨by omega, by omega, hop⟩ h

theorem data_unmarshal_accepts_iff_witness :
    (Data.UnmarshalBinary ⟨9, NewBuffer [5]⟩ [0, 3, 1, 2]).2 = none
      ∧ (Data.UnmarshalBinary ⟨9, NewBuffer [5]⟩ [0, 3, 1, 2]).1.Payload.buf = [] :=
  (data_unmarshal_accepts_iff ⟨9, NewBuffer [5]⟩ [0, 3, 1, 2]).2.2.2.2.2 rfl rfl

/-- Bytes 2 and 3 of a successful `Data.MarshalBinary` output hold the
advanced counter, big-endian. -/
theorem data_marshal_block (d : Data) (out : List Byte)
    (h : (Data.MarshalBinary d).2 = Except.ok out) :
    (out.getD 2 0).val * 256 + (out.getD 3 0).val = (d.Block + 1) % 65536 := by
  have hB : (d.Block + 1) % 65536 < 65536 := Nat.mod_lt _ (by decide)
  rw [data_marshal_eq] at h
  simp only at h
  split at h
  · cases h
  · cases h
    simpa using byte_hi_lo _ hB

/-- C8. Data encode advances the block counter by exactly one on every call:
after `MarshalBinary`, whether it succeeded or failed on a payload read error,
the `Block` field is `(b + 1) mod 65536`; on success bytes 2 and 3 of the
output are that value big-endian; and of two successive successful encodes of
one instance, whatever payload source it is given for the second, the second
block number is the first plus one modulo 65536. -/
theorem data_marshal_advances_block (d : Data) :
    (Data.MarshalBinary d).1.Block = (d.Block + 1) % 65536
      ∧ (∀ out, (Data.MarshalBinary d).2 = Except.ok out →
          (out.getD 2 0).val * 256 + (out.getD 3 0).val = (d.Block + 1) % 65536)
      ∧ (∀ (fresh : Reader) (out1 out2 : List Byte),
          (Data.MarshalBinary d).2 = Except.ok out1 →
          (Data.MarshalBinary { (Data.MarshalBinary d).1 with Payload := fresh }).2
            = Except.ok out2 →
          (out2.getD 2 0).val * 256 + (out2.getD 3 0).val
            = ((out1.getD 2 0).val * 256 + (out1.getD 3 0).val + 1) % 65536)
      ∧ (∀ (out1 out2 : List Byte),
          (Data.MarshalBinary d).2 = Except.ok out1 →
          (Data.MarshalBinary (Data.MarshalBinary d).1).2 = Except.ok out2 →
          (out2.getD 2 0).val * 256 + (out2.getD 3 0).val
            = ((out1.getD 2 0).val * 256 + (out1.getD 3 0).val + 1) % 65536) := by
  have hblk : (Data.MarshalBinary d).1.Block = (d.Block + 1) % 65536 := by
    rw [data_marshal_eq]
  refine ⟨hblk, fun out h => data_marshal_block d out h, ?_, ?_⟩
  · intro fresh out1 out2 h1 h2
    rw [data_marshal_block d out1 h1, data_marshal_block _ out2 h2]
    simp only [hblk]
  · intro out1 out2 h1 h2
    rw [data_marshal_block d out1 h1, data_marshal_block _ out2 h2, hblk]

/-- A failing encode (a source that breaks off after two bytes) and a
succeeding one both leave the counter advanced, and two encodes in a row
across the wraparound emit the blocks 65535 and 0. -/
theorem data_marshal_advances_block_witness :
    (Data.MarshalBinary ⟨41, ⟨[1, 2], GoError.New "disk"⟩⟩).1.Block = 42
      ∧ (Data.MarshalBinary ⟨41, ⟨[1, 2], GoError.New "disk"⟩⟩).2
          = Except.error (GoError.New "disk")
      ∧ ([0, 3, 0, 0, 8].getD 2 (0 : Byte)).val * 256 + ([0, 3, 0, 0, 8].getD 3 (0 : Byte)).val
          = (([0, 3, 255, 255, 7].getD 2 (0 : Byte)).val * 256
              + ([0, 3, 255, 255, 7].getD 3 (0 : Byte)).val + 1) % 65536 :=
  ⟨(data_marshal_advances_block ⟨41, ⟨[1, 2], GoError.New "disk"⟩⟩).1, by decide,
   (data_marshal_advances_block ⟨65534, NewBuffer [7]⟩).2.2.1 (NewBuffer [8])
      [0, 3, 255, 255, 7] [0, 3, 0, 0, 8] (by decide) (by decide)⟩

/-- C9. Data encode performs a bounded copy: for a payload source that holds
`n` bytes and then reports end-of-input, `MarshalBinary` succeeds and returns
0x00 0x03, the advanced block number in two bytes big-endian, and the first
`min n 512` bytes of the source; the output has `4 + min n 512 ≤ 516` bytes,
and the source afterwards holds the bytes after those copied. -/
theorem data_marshal_bounded_copy (d : Data) (hfin : d.Payload.fin = GoError.EOF) :
    (Data.MarshalBinary d).2
        = Except.ok ([0, 3]
            ++ [byte ((d.Block + 1) % 65536 / 256), byte ((d.Block + 1) % 65536)]
            ++ d.Payload.buf.take (min d.Payload.buf.length 512))
      ∧ (byte ((d.Block + 1) % 65536 / 256)).val = (d.Block + 1) % 65536 / 256
      ∧ (byte ((d.Block + 1) % 65536)).val = (d.Block + 1) % 65536 % 256
      ∧ (∀ out, (Data.MarshalBinary d).2 = Except.ok out →
          out.length = 4 + min d.Payload.buf.length 512 ∧ out.length ≤ 516)
      ∧ (Data.MarshalBinary d).1.Payload.buf = d.Payload.buf.drop 512 := by
  have hB : (d.Block + 1) % 65536 < 65536 := Nat.mod_lt _ (by decide)
  have htake : d.Payload.buf.take (min d.Payload.buf.length 512) = d.Payload.buf.take 512 := by
    rcases Nat.le_total d.Payload.buf.length 512 with h | h
    · rw [Nat.min_eq_left h, List.take_of_length_le h, List.take_of_length_le (le_refl _)]
    · rw [Nat.min_eq_right h]
  have hres : (Data.MarshalBinary d).2
      = Except.ok ([0, 3]
          ++ [byte ((d.Block + 1) % 65536 / 256), byte ((d.Block + 1) % 65536)]
          ++ d.Payload.buf.take (min d.Payload.buf.length 512)) := by
    rw [data_marshal_eq, htake]
    simp [hfin]
  refine ⟨hres, ?_, ?_, ?_, ?_⟩
  · simp only [byte]
    omega
  · simp only [byte]
  · intro out hout
    rw [hres] at hout
    cases hout
    simp only [List.length_append, List.length_take, List.length_cons, List.length_nil]
    omega
  · rw [data_marshal_eq]

/-- A source of three bytes ending in end-of-input is copied whole. -/
theorem data_marshal_bounded_copy_witness :
    (Data.MarshalBinary ⟨0, NewBuffer [10, 20, 30]⟩).2 = Except.ok [0, 3, 0, 1, 10, 20, 30] :=
  (data_marshal_bounded_copy ⟨0, NewBuffer [10, 20, 30]⟩ rfl).1

/-! ## Err -/

/-- The bytes `Err.MarshalBinary` returns. -/
theorem err_marshal_eq (e : Err) :
    Err.MarshalBinary e
      = Except.ok ([0, 5, byte (e.Error / 256), byte e.Error] ++ e.Message ++ [0]) := by
  simp [Err.MarshalBinary, binaryWrite, WriteString, WriteByte, OpErr, byte]

/-- Decoding an error packet whose message is terminated. -/
theorem err_unmarshal_terminated (e0 : Err) (hi lo : Byte) (msg rest : List Byte)
    (hm0 : (0 : Byte) ∉ msg) :
    Err.UnmarshalBinary e0 ([0, 5, hi, lo] ++ msg ++ [0] ++ rest)
      = (⟨hi.val * 256 + lo.val, msg⟩, none) := by
  have e : ([0, 5, hi, lo] ++ msg ++ [0] ++ rest : List Byte)
      = 0 :: 5 :: hi :: lo :: (msg ++ 0 :: rest) := by simp
  have h5 : ((5 : Byte) : Nat) = 5 := rfl
  rw [e]
  simp [Err.UnmarshalBinary, binaryRead, OpErr, h5, ReadString_append, hm0,
    TrimSuffix_append_singleton]

/-- C3. Err round trip: for a 16-bit error code and a message without a zero
byte (empty or not), `MarshalBinary` returns bytes from which
`UnmarshalBinary`, on any receiver, succeeds with the same code and the same
message; the code `ErrNotFound` with the message "missing" is written as
0x00 0x05 0x00 0x01 "missing" 0x00 and read back as code 1, message
"missing". -/
theorem err_roundtrip (e0 : Err) (code : Nat) (msg : List Byte)
    (hc : code < 65536) (hm0 : (0 : Byte) ∉ msg) :
    (∃ bs, Err.MarshalBinary ⟨code, msg⟩ = Except.ok bs
        ∧ Err.UnmarshalBinary e0 bs = (⟨code, msg⟩, none))
      ∧ Err.MarshalBinary ⟨ErrNotFound, [109, 105, 115, 115, 105, 110, 103]⟩
          = Except.ok [0, 5, 0, 1, 109, 105, 115, 115, 105, 110, 103, 0]
      ∧ Err.UnmarshalBinary e0 [0, 5, 0, 1, 109, 105, 115, 115, 105, 110, 103, 0]
          = (⟨1, [109, 105, 115, 115, 105, 110, 103]⟩, none) := by
  refine ⟨⟨_, err_marshal_eq _, ?_⟩, by decide, ?_⟩
  · have h := err_unmarshal_terminated e0 (byte (code / 256)) (byte code) msg [] hm0
    simp only [List.append_nil] at h
    rw [h, byte_hi_lo code hc]
  · exact err_unmarshal_terminated e0 0 1 [109, 105, 115, 115, 105, 110, 103] []
      (by decide)

theorem err_roundtrip_witness :
    ∃ bs, Err.MarshalBinary ⟨ErrNoUser, [110, 111]⟩ = Except.ok bs
      ∧ Err.UnmarshalBinary ⟨0, [1]⟩ bs = (⟨ErrNoUser, [110, 111]⟩, none) :=
  (err_roundtrip ⟨0, [1]⟩ ErrNoUser [110, 111] (by decide) (by decide)).1

/-! ## Ack -/

/-- C4. Ack round trip and layout: for a block number `a` below 65536,
`MarshalBinary` returns exactly the four bytes 0x00, 0x04, `a / 256`,
`a mod 256`, and `UnmarshalBinary` of those bytes, on any receiver, succeeds
and sets the receiver to `a`. -/
theorem ack_roundtrip (a0 a : Nat) (ha : a < 65536) :
    (∃ bs, Ack.MarshalBinary a = Except.ok bs
        ∧ bs.map Fin.val = [0, 4, a / 256, a % 256]
        ∧ bs.length = 4
        ∧ Ack.UnmarshalBinary a0 bs = (a, none)) := by
  refine ⟨[0, 4, byte (a / 256), byte a], ?_, ?_, rfl, ?_⟩
  · simp [Ack.MarshalBinary, binaryWrite, OpAck, byte]
  · have h1 : a / 256 % 256 = a / 256 := Nat.mod_eq_of_lt (by omega)
    have h4 : ((4 : Byte) : Nat) = 4 := rfl
    simp [byte, h1, h4]
  · have h4 : ((4 : Byte) : Nat) = 4 := rfl
    simp [Ack.UnmarshalBinary, binaryRead, OpAck, h4, byte_hi_lo a ha]

theorem ack_roundtrip_witness :
    ∃ bs, Ack.MarshalBinary 65535 = Except.ok bs
      ∧ bs.map Fin.val = [0, 4, 65535 / 256, 65535 % 256]
      ∧ bs.length = 4
      ∧ Ack.UnmarshalBinary 3 bs = (65535, none) :=
  ack_roundtrip 3 65535 (by decide)

/-! ## Opcode check of the four decoders -/

/-- C6. Opcode mismatch is rejected by every decoder: on a buffer of at least
two bytes `hi, lo, ...` whose big-endian value `256 * hi + lo` is not the
opcode of the variant, `UnmarshalBinary` returns "invalid RRQ" for ReadReq,
"invalid DATA" for Data, "invalid ACK" for Ack and "invalid ERROR" for Err,
the receiver untouched; a buffer that begins 0x00 0x02 is therefore rejected
by all four. -/
theorem opcode_mismatch_rejected (unicodeMap : List Byte → List Byte)
    (q : ReadReq) (d : Data) (a : Nat) (e : Err) (hi lo : Byte) (rest : List Byte) :
    (hi.val * 256 + lo.val ≠ OpRRQ →
        ReadReq.UnmarshalBinary unicodeMap q (hi :: lo :: rest)
          = (q, some (GoError.New "invalid RRQ")))
      ∧ (hi.val * 256 + lo.val ≠ OpData →
        Data.UnmarshalBinary d (hi :: lo :: rest) = (d, some (GoError.New "invalid DATA")))
      ∧ (hi.val * 256 + lo.val ≠ OpAck →
        Ack.UnmarshalBinary a (hi :: lo :: rest) = (a, some (GoError.New "invalid ACK")))
      ∧ (hi.val * 256 + lo.val ≠ OpErr →
        Err.UnmarshalBinary e (hi :: lo :: rest) = (e, some (GoError.New "invalid ERROR")))
      ∧ (hi = 0 → lo = 2 →
        ReadReq.UnmarshalBinary unicodeMap q (hi :: lo :: rest)
            = (q, some (GoError.New "invalid RRQ"))
          ∧ Data.UnmarshalBinary d (hi :: lo :: rest) = (d, some (GoError.New "invalid DATA"))
          ∧ Ack.UnmarshalBinary a (hi :: lo :: rest) = (a, some (GoError.New "invalid ACK"))
          ∧ Err.UnmarshalBinary e (hi :: lo :: rest)
              = (e, some (GoError.New "invalid ERROR"))) := by
  have hrrq : hi.val * 256 + lo.val ≠ OpRRQ →
      ReadReq.UnmarshalBinary unicodeMap q (hi :: lo :: rest)
        = (q, some (GoError.New "invalid RRQ")) := by
    intro h
    simp [ReadReq.UnmarshalBinary, binaryRead, h]
  have hdata : hi.val * 256 + lo.val ≠ OpData →
      Data.UnmarshalBinary d (hi :: lo :: rest) = (d, some (GoError.New "invalid DATA")) := by
    intro h
    rw [data_unmarshal_eq, if_neg]
    rintro ⟨_, _, hop⟩
    simp only [List.take_succ_cons, List.take_zero, List.cons.injEq, and_true] at hop
    obtain ⟨h0, h3⟩ := hop
    subst h0 h3
    exact h rfl
  have hack : hi.val * 256 + lo.val ≠ OpAck →
      Ack.UnmarshalBinary a (hi :: lo :: rest) = (a, some (GoError.New "invalid ACK")) := by
    intro h
    simp [Ack.UnmarshalBinary, binaryRead, h]
  have herr : hi.val * 256 + lo.val ≠ OpErr →
      Err.UnmarshalBinary e (hi :: lo :: rest) = (e, some (GoError.New "invalid ERROR")) := by
    intro h
    simp [Err.UnmarshalBinary, binaryRead, h]
  refine ⟨hrrq, hdata, hack, herr, ?_⟩
  intro h0 h2
  subst h0 h2
  exact ⟨hrrq (by decide), hdata (by decide), hack (by decide), herr (by decide)⟩

/-- The write request 0x00 0x02 "a" 0x00 "octet" 0x00 is rejected by the four
decoders. -/
theorem opcode_mismatch_rejected_witness :
    ReadReq.UnmarshalBinary id ⟨[], []⟩ [0, 2, 97, 0, 111, 99, 116, 101, 116, 0]
        = (⟨[], []⟩, some (GoError.New "invalid RRQ"))
      ∧ Data.UnmarshalBinary ⟨0, NewBuffer []⟩ [0, 2, 97, 0, 111, 99, 116, 101, 116, 0]
        = (⟨0, NewBuffer []⟩, some (GoError.New "invalid DATA"))
      ∧ Ack.UnmarshalBinary 0 [0, 2, 97, 0, 111, 99, 116, 101, 116, 0]
        = (0, some (GoError.New "invalid ACK"))
      ∧ Err.UnmarshalBinary ⟨0, []⟩ [0, 2, 97, 0, 111, 99, 116, 101, 116, 0]
        = (⟨0, []⟩, some (GoError.New "invalid ERROR")) :=
  (opcode_mismatch_rejected id ⟨[], []⟩ ⟨0, NewBuffer []⟩ 0 ⟨0, []⟩ 0 2
      [97, 0, 111, 99, 116, 101, 116, 0]).2.2.2.2 rfl rfl

/-! ## ReadReq: rejected requests -/

/-- The string `"netascii"`. -/
theorem ToLower_netascii (unicodeMap : List Byte → List Byte) :
    ToLower unicodeMap [110, 101, 116, 97, 115, 99, 105, 105] ≠ octet := by
  unfold ToLower
  rw [if_pos (by decide)]
  decide

/-- C11. ReadReq decode rejects unsupported modes with a mode-specific error:
on the opcode 1, a non-empty zero-free filename `f`, a zero byte, a non-empty
zero-free mode `m` whose lower-case form is not "octet", a zero byte and any
further bytes, `UnmarshalBinary` returns "only binary transfers supported",
which is not the error "invalid RRQ"; the request for "a" in mode "netascii"
fails this way. -/
theorem readReq_decode_rejects_mode (unicodeMap : List Byte → List Byte) (q0 : ReadReq)
    (f m rest : List Byte) (hf : f ≠ []) (hf0 : (0 : Byte) ∉ f)
    (hm : m ≠ []) (hm0 : (0 : Byte) ∉ m) (hoct : ToLower unicodeMap m ≠ octet) :
    (ReadReq.UnmarshalBinary unicodeMap q0 ([0, 1] ++ f ++ [0] ++ m ++ [0] ++ rest)).2
        = some (GoError.New "only binary transfers supported")
      ∧ GoError.New "only binary transfers supported" ≠ GoError.New "invalid RRQ"
      ∧ (ReadReq.UnmarshalBinary unicodeMap q0
          [0, 1, 97, 0, 110, 101, 116, 97, 115, 99, 105, 105, 0]).2
        = some (GoError.New "only binary transfers supported") := by
  refine ⟨?_, by decide, ?_⟩
  · rw [readReq_unmarshal_fields unicodeMap q0 f m rest hf hf0 hm hm0, if_pos hoct]
  · have h := readReq_unmarshal_fields unicodeMap q0 [97]
      [110, 101, 116, 97, 115, 99, 105, 105] [] (by decide) (by decide) (by decide) (by decide)
    rw [if_pos (ToLower_netascii unicodeMap)] at h
    simp only [List.append_nil] at h
    exact congrArg Prod.snd h

/-- A request for "b" in mode "mail", with trailing bytes, is refused for its
mode. -/
theorem readReq_decode_rejects_mode_witness :
    (ReadReq.UnmarshalBinary id ⟨[], []⟩
        ([0, 1] ++ [98] ++ [0] ++ [109, 97, 105, 108] ++ [0] ++ [9, 9])).2
      = some (GoError.New "only binary transfers supported") :=
  (readReq_decode_rejects_mode id ⟨[], []⟩ [98] [109, 97, 105, 108] [9, 9]
    (by decide) (by decide) (by decide) (by decide) (by decide)).1

/-- An empty filename is refused. -/
theorem readReq_empty_filename (unicodeMap : List Byte → List Byte) (q0 : ReadReq)
    (rest : List Byte) :
    (ReadReq.UnmarshalBinary unicodeMap q0 ([0, 1] ++ [0] ++ rest)).2
      = some (GoError.New "invalid RRQ") := by
  have hnil : TrimSuffix [0] [0] = [] := TrimSuffix_append_singleton [] 0
  simp [ReadReq.UnmarshalBinary, binaryRead, OpRRQ, ReadString, hnil]

/-- An empty mode is refused. -/
theorem readReq_empty_mode (unicodeMap : List Byte → List Byte) (q0 : ReadReq)
    (f rest : List Byte) (hf0 : (0 : Byte) ∉ f) :
    (ReadReq.UnmarshalBinary unicodeMap q0 ([0, 1] ++ f ++ [0] ++ [0] ++ rest)).2
      = some (GoError.New "invalid RRQ") := by
  have hnil : TrimSuffix [0] [0] = [] := TrimSuffix_append_singleton [] 0
  have e : ([0, 1] ++ f ++ [0] ++ [0] ++ rest : List Byte)
      = 0 :: 1 :: (f ++ 0 :: (0 :: rest)) := by simp
  rw [e]
  by_cases hf : f = []
  · subst hf
    simp [ReadReq.UnmarshalBinary, binaryRead, OpRRQ, ReadString, hnil]
  · simp [ReadReq.UnmarshalBinary, binaryRead, OpRRQ, ReadString_append, hf0,
      TrimSuffix_append_singleton, hf, ReadString, hnil]

/-- C12. ReadReq decode rejects malformed fields: on a buffer that begins with
the opcode 0x00 0x01, `UnmarshalBinary` returns "invalid RRQ" when (a) no zero
byte follows the opcode, (b) the byte right after the opcode is zero, (c) no
zero byte follows the terminator of the filename, (d) the byte right after the
terminator of the filename is zero. -/
theorem readReq_decode_rejects_malformed (unicodeMap : List Byte → List Byte)
    (q0 : ReadReq) :
    (∀ f : List Byte, (0 : Byte) ∉ f →
        (ReadReq.UnmarshalBinary unicodeMap q0 ([0, 1] ++ f)).2
          = some (GoError.New "invalid RRQ"))
      ∧ (∀ rest : List Byte,
        (ReadReq.UnmarshalBinary unicodeMap q0 ([0, 1] ++ [0] ++ rest)).2
          = some (GoError.New "invalid RRQ"))
      ∧ (∀ f m : List Byte, (0 : Byte) ∉ f → (0 : Byte) ∉ m →
        (ReadReq.UnmarshalBinary unicodeMap q0 ([0, 1] ++ f ++ [0] ++ m)).2
          = some (GoError.New "invalid RRQ"))
      ∧ (∀ f rest : List Byte, (0 : Byte) ∉ f →
        (ReadReq.UnmarshalBinary unicodeMap q0 ([0, 1] ++ f ++ [0] ++ [0] ++ rest)).2
          = some (GoError.New "invalid RRQ")) := by
  have hnil : TrimSuffix [0] [0] = [] := TrimSuffix_append_singleton [] 0
  refine ⟨?_, ?_, ?_, ?_⟩
  · intro f hf0
    simp [ReadReq.UnmarshalBinary, binaryRead, OpRRQ, ReadString_of_not_mem, hf0]
  · intro rest
    exact readReq_empty_filename unicodeMap q0 rest
  · intro f m hf0 hm0
    have e : ([0, 1] ++ f ++ [0] ++ m : List Byte) = 0 :: 1 :: (f ++ 0 :: m) := by simp
    rw [e]
    by_cases hf : f = []
    · subst hf
      simp [ReadReq.UnmarshalBinary, binaryRead, OpRRQ, ReadString, hnil]
    · simp [ReadReq.UnmarshalBinary, binaryRead, OpRRQ, ReadString_append, hf0,
        TrimSuffix_append_singleton, hf, ReadString_of_not_mem, hm0]
  · intro f rest hf0
    exact readReq_empty_mode unicodeMap q0 f rest hf0

/-- The four malformed requests: "abc" unterminated, an empty filename, the
mode "octet" unterminated, an empty mode. -/
theorem readReq_decode_rejects_malformed_witness :
    (ReadReq.UnmarshalBinary id ⟨[], []⟩ ([0, 1] ++ [97, 98, 99])).2
        = some (GoError.New "invalid RRQ")
      ∧ (ReadReq.UnmarshalBinary id ⟨[], []⟩ ([0, 1] ++ [0] ++ [111, 0])).2
        = some (GoError.New "invalid RRQ")
      ∧ (ReadReq.UnmarshalBinary id ⟨[], []⟩
          ([0, 1] ++ [97] ++ [0] ++ [111, 99, 116, 101, 116])).2
        = some (GoError.New "invalid RRQ")
      ∧ (ReadReq.UnmarshalBinary id ⟨[], []⟩ ([0, 1] ++ [97] ++ [0] ++ [0] ++ [7])).2
        = some (GoError.New "invalid RRQ") :=
  ⟨(readReq_decode_rejects_malformed id ⟨[], []⟩).1 [97, 98, 99] (by decide),
   (readReq_decode_rejects_malformed id ⟨[], []⟩).2.1 [111, 0],
   (readReq_decode_rejects_malformed id ⟨[], []⟩).2.2.1 [97] [111, 99, 116, 101, 116]
     (by decide) (by decide),
   (readReq_decode_rejects_malformed id ⟨[], []⟩).2.2.2 [97] [7] (by decide)⟩

/-! ## Err: terminator and empty message -/

/-- C13. Err decode requires a terminator: on the opcode 0x00 0x05, two bytes
of error code and message bytes none of which is zero, `UnmarshalBinary` fails
(with `io.EOF`, the code and the unterminated text stored); and on a buffer
with the opcode 5 and fewer than 4 bytes it fails with "invalid ERROR". -/
theorem err_decode_needs_terminator (e0 : Err) (hi lo : Byte) (msg : List Byte)
    (hm0 : (0 : Byte) ∉ msg) :
    Err.UnmarshalBinary e0 ([0, 5, hi, lo] ++ msg)
        = (⟨hi.val * 256 + lo.val, msg⟩, some GoError.EOF)
      ∧ (∀ p : List Byte, p.take 2 = [0, 5] → p.length < 4 →
          Err.UnmarshalBinary e0 p = (e0, some (GoError.New "invalid ERROR"))) := by
  have h5 : ((5 : Byte) : Nat) = 5 := rfl
  constructor
  · have hns : List.isSuffixOf [(0 : Byte)] msg = false := by
      rw [Bool.eq_false_iff]
      intro hs
      rw [List.isSuffixOf_iff_suffix] at hs
      exact hm0 (hs.subset (by simp))
    simp [Err.UnmarshalBinary, binaryRead, OpErr, h5, ReadString_of_not_mem, hm0,
      TrimSuffix, hns]
  · intro p hop hlen
    match p, hop, hlen with
    | [a, b], hop, _ =>
      simp only [List.take_succ_cons, List.take_zero, List.cons.injEq, and_true] at hop
      obtain ⟨ha, hb⟩ := hop
      subst ha hb
      simp [Err.UnmarshalBinary, binaryRead, OpErr, h5]
    | [a, b, c], hop, _ =>
      simp only [List.take_succ_cons, List.take_zero, List.cons.injEq, and_true] at hop
      obtain ⟨ha, hb⟩ := hop
      subst ha hb
      simp [Err.UnmarshalBinary, binaryRead, OpErr, h5]
    | [], hop, _ => simp at hop
    | [a], hop, _ => simp at hop
    | _ :: _ :: _ :: _ :: _, _, hlen => simp at hlen; omega

/-- The packet 0x00 0x05 0x00 0x01 "missing" without its zero byte fails, and
so does the 3-byte packet 0x00 0x05 0x00. -/
theorem err_decode_needs_terminator_witness :
    Err.UnmarshalBinary ⟨0, []⟩ ([0, 5, 0, 1] ++ [109, 105, 115, 115, 105, 110, 103])
        = (⟨(0 : Byte).val * 256 + (1 : Byte).val, [109, 105, 115, 115, 105, 110, 103]⟩,
            some GoError.EOF)
      ∧ Err.UnmarshalBinary ⟨0, []⟩ [0, 5, 0] = (⟨0, []⟩, some (GoError.New "invalid ERROR")) :=
  ⟨(err_decode_needs_terminator ⟨0, []⟩ 0 1 [109, 105, 115, 115, 105, 110, 103]
      (by decide)).1,
   (err_decode_needs_terminator ⟨0, []⟩ 0 1 [109, 105, 115, 115, 105, 110, 103]
      (by decide)).2 [0, 5, 0] rfl (by decide)⟩

/-- C14, as the code has it. An empty message is not a malformed field: on
the opcode 0x00 0x05, two bytes of error code, a zero byte and any further
bytes, `Err.UnmarshalBinary` succeeds and stores the code and the empty
message; an empty filename and an empty mode of a read request are refused
with "invalid RRQ". -/
theorem err_decode_accepts_empty_message (e0 : Err) (hi lo : Byte) (rest : List Byte) :
    Err.UnmarshalBinary e0 ([0, 5, hi, lo] ++ [0] ++ rest)
        = (⟨hi.val * 256 + lo.val, []⟩, none)
      ∧ (∀ (unicodeMap : List Byte → List Byte) (q0 : ReadReq),
          (ReadReq.UnmarshalBinary unicodeMap q0 ([0, 1] ++ [0] ++ rest)).2
            = some (GoError.New "invalid RRQ"))
      ∧ (∀ (unicodeMap : List Byte → List Byte) (q0 : ReadReq) (f : List Byte),
          (0 : Byte) ∉ f →
          (ReadReq.UnmarshalBinary unicodeMap q0 ([0, 1] ++ f ++ [0] ++ [0] ++ rest)).2
            = some (GoError.New "invalid RRQ")) := by
  refine ⟨?_, fun unicodeMap q0 => readReq_empty_filename unicodeMap q0 rest,
    fun unicodeMap q0 f hf0 => readReq_empty_mode unicodeMap q0 f rest hf0⟩
  have h := err_unmarshal_terminated e0 hi lo [] rest (by simp)
  simpa using h

/-- The packet 0x00 0x05 0x00 0x03 0x00 is decoded as code 3 with the empty
message, and the request for "a" with an empty mode is refused. -/
theorem err_decode_accepts_empty_message_witness :
    Err.UnmarshalBinary ⟨0, [120]⟩ ([0, 5, 0, 3] ++ [0] ++ [])
        = (⟨(0 : Byte).val * 256 + (3 : Byte).val, []⟩, none)
      ∧ (ReadReq.UnmarshalBinary id ⟨[], []⟩ ([0, 1] ++ [97] ++ [0] ++ [0] ++ [])).2
        = some (GoError.New "invalid RRQ") :=
  ⟨(err_decode_accepts_empty_message ⟨0, [120]⟩ 0 3 []).1,
   (err_decode_accepts_empty_message ⟨0, [120]⟩ 0 3 []).2.2 id ⟨[], []⟩ [97] (by decide)⟩

/-- C14 fails on the code: the packet 0x00 0x05 0x00 0x01 0x00, whose message
is empty, is decoded without error, as code 1 with the message "". -/
theorem err_decode_empty_message_counterexample :
    Err.UnmarshalBinary ⟨0, [120]⟩ [0, 5, 0, 1, 0] = (⟨1, []⟩, none) := by
  decide

/-! ## Ack: decode -/

/-- The receiver and the error of `Ack.UnmarshalBinary` on a buffer of at
least four bytes. -/
theorem ack_unmarshal_long (a : Nat) (hi lo c e : Byte) (rest : List Byte) :
    Ack.UnmarshalBinary a (hi :: lo :: c :: e :: rest)
      = if hi = 0 ∧ lo = 4 then (c.val * 256 + e.val, none)
        else (a, some (GoError.New "invalid ACK")) := by
  have h4 : ((4 : Byte) : Nat) = 4 := rfl
  by_cases hop : hi = 0 ∧ lo = 4
  · obtain ⟨h0, h1⟩ := hop
    subst h0 h1
    simp [Ack.UnmarshalBinary, binaryRead, OpAck, h4]
  · have hne : ¬ (hi.val * 256 + lo.val = 4) := by
      intro h
      apply hop
      have hb := lo.isLt
      constructor
      · apply Fin.ext
        simp only [Fin.val_zero]
        omega
      · apply Fin.ext
        rw [h4]
        omega
    simp [Ack.UnmarshalBinary, binaryRead, OpAck, hop, hne]

/-- On a buffer of fewer than four bytes `Ack.UnmarshalBinary` fails and
keeps the receiver. -/
theorem ack_unmarshal_short (a : Nat) (p : List Byte) (hlen : p.length < 4) :
    (Ack.UnmarshalBinary a p).2 ≠ none ∧ (Ack.UnmarshalBinary a p).1 = a := by
  match p, hlen with
  | [], _ => simp [Ack.UnmarshalBinary, binaryRead]
  | [_], _ => simp [Ack.UnmarshalBinary, binaryRead]
  | [hi, lo], _ =>
    by_cases h : hi.val * 256 + lo.val = OpAck <;>
      simp [Ack.UnmarshalBinary, binaryRead, h]
  | [hi, lo, _], _ =>
    by_cases h : hi.val * 256 + lo.val = OpAck <;>
      simp [Ack.UnmarshalBinary, binaryRead, h]
  | _ :: _ :: _ :: _ :: _, hlen => simp at hlen; omega

/-- C15. Ack decode is exactly characterised: `UnmarshalBinary` succeeds if
and only if the buffer has at least 4 bytes and begins with 0x00 0x04; on
success the receiver is `256 * p[2] + p[3]`, the bytes after offset 4 playing
no part; whenever it fails the receiver keeps its previous value, which covers
the buffers of fewer than 2 bytes and those with opcode 4 and only 2 or 3
bytes, all of which fail. -/
theorem ack_unmarshal_accepts_iff (a : Nat) (p : List Byte) :
    ((Ack.UnmarshalBinary a p).2 = none ↔ 4 ≤ p.length ∧ p.take 2 = [0, 4])
      ∧ ((Ack.UnmarshalBinary a p).2 = none →
          (Ack.UnmarshalBinary a p).1 = 256 * (p.getD 2 0).val + (p.getD 3 0).val
            ∧ Ack.UnmarshalBinary a p = Ack.UnmarshalBinary a (p.take 4))
      ∧ ((Ack.UnmarshalBinary a p).2 ≠ none → (Ack.UnmarshalBinary a p).1 = a)
      ∧ (p.length < 2 →
          (Ack.UnmarshalBinary a p).2 ≠ none ∧ (Ack.UnmarshalBinary a p).1 = a)
      ∧ (p.take 2 = [0, 4] → p.length = 2 ∨ p.length = 3 →
          (Ack.UnmarshalBinary a p).2 ≠ none ∧ (Ack.UnmarshalBinary a p).1 = a) := by
  by_cases hlen : p.length < 4
  · obtain ⟨hfail, hkeep⟩ := ack_unmarshal_short a p hlen
    refine ⟨⟨fun h => absurd h hfail, fun h => by omega⟩, fun h => absurd h hfail,
      fun _ => hkeep, fun _ => ⟨hfail, hkeep⟩, fun _ _ => ⟨hfail, hkeep⟩⟩
  · match p, hlen with
    | [], hlen => simp at hlen
    | [_], hlen => simp at hlen
    | [_, _], hlen => simp at hlen
    | [_, _, _], hlen => simp at hlen
    | hi :: lo :: c :: e :: rest, _ =>
      have hlong := ack_unmarshal_long a hi lo c e rest
      have htake := ack_unmarshal_long a hi lo c e []
      by_cases hop : hi = 0 ∧ lo = 4
      · rw [if_pos hop] at hlong htake
        refine ⟨?_, ?_, ?_, ?_, ?_⟩
        · rw [hlong]
          simp [hop.1, hop.2]
        · intro _
          refine ⟨?_, ?_⟩
          · rw [hlong]
            show c.val * 256 + e.val = 256 * c.val + e.val
            omega
          · rw [hlong]
            exact htake.symm
        · intro h
          rw [hlong] at h
          exact absurd rfl h
        · intro h
          simp only [List.length_cons] at h
          omega
        · intro _ h
          simp only [List.length_cons] at h
          omega
      · rw [if_neg hop] at hlong
        refine ⟨?_, ?_, ?_, ?_, ?_⟩
        · rw [hlong]
          simp only [List.take_succ_cons, List.take_zero, List.cons.injEq, and_true]
          constructor
          · intro h
            cases h
          · intro h
            exact absurd h.2 hop
        · intro h
          rw [hlong] at h
          cases h
        · intro _
          rw [hlong]
        · intro h
          simp only [List.length_cons] at h
          omega
        · intro _ h
          simp only [List.length_cons] at h
          omega

/-- The 3-byte buffer 0x00 0x04 0x09 fails and leaves the receiver 77 as it
was. -/
theorem ack_unmarshal_accepts_iff_witness :
    (Ack.UnmarshalBinary 77 [0, 4, 9]).2 ≠ none ∧ (Ack.UnmarshalBinary 77 [0, 4, 9]).1 = 77 :=
  (ack_unmarshal_accepts_iff 77 [0, 4, 9]).2.2.2.2 rfl (Or.inr rfl)

/-! ## Size of the encodings -/

/-- C16, as the code has it. The encodings of Data and Ack are within
`DatagramSize`: a successful Data encode has at most 516 bytes and an Ack
encode exactly 4. The encodings of ReadReq and Err are not limited: a ReadReq
is written in `2 + len(Filename) + 1 + len(mode) + 1` bytes (`mode` being
"octet" for an empty `Mode`) and an Err in `2 + 2 + len(Message) + 1` bytes,
which is within `DatagramSize` exactly when the strings are short enough. -/
theorem marshal_size (q : ReadReq) (d : Data) (a : Nat) (e : Err) :
    (∀ out, (Data.MarshalBinary d).2 = Except.ok out → out.length ≤ DatagramSize)
      ∧ (∃ bs, Ack.MarshalBinary a = Except.ok bs ∧ bs.length = 4 ∧ bs.length ≤ DatagramSize)
      ∧ (∃ bs, ReadReq.MarshalBinary q = Except.ok bs
          ∧ bs.length
              = 2 + q.Filename.length + 1 + (if q.Mode = [] then octet else q.Mode).length + 1
          ∧ (bs.length ≤ DatagramSize
              ↔ q.Filename.length + (if q.Mode = [] then octet else q.Mode).length ≤ 512))
      ∧ (∃ bs, Err.MarshalBinary e = Except.ok bs
          ∧ bs.length = 2 + 2 + e.Message.length + 1
          ∧ (bs.length ≤ DatagramSize ↔ e.Message.length ≤ 511)) := by
  refine ⟨?_, ?_, ?_, ?_⟩
  · intro out hout
    rw [data_marshal_eq] at hout
    simp only at hout
    split at hout
    · cases hout
    · cases hout
      simp only [List.length_append, List.length_take, List.length_cons, List.length_nil,
        DatagramSize]
      omega
  · refine ⟨[0, 4, byte (a / 256), byte a], ?_, rfl, by simp [DatagramSize]⟩
    simp [Ack.MarshalBinary, binaryWrite, OpAck, byte]
  · refine ⟨_, readReq_marshal_eq q, ?_, ?_⟩
    · simp only [List.length_append, List.length_cons, List.length_nil]
    · simp only [List.length_append, List.length_cons, List.length_nil, DatagramSize]
      omega
  · refine ⟨_, err_marshal_eq e, ?_, ?_⟩
    · simp only [List.length_append, List.length_cons, List.length_nil]
    · simp only [List.length_append, List.length_cons, List.length_nil, DatagramSize]
      omega

/-- A Data encode from a source of one byte returns 5 bytes. -/
theorem marshal_size_witness :
    ([0, 3, 0, 1, 7] : List Byte).length ≤ DatagramSize :=
  (marshal_size ⟨[], []⟩ ⟨0, NewBuffer [7]⟩ 0 ⟨0, []⟩).1 [0, 3, 0, 1, 7] (by decide)

/-- C16 fails on the code: a read request for a file name of 600 bytes is
encoded in 609 bytes, and an error with a message of 600 bytes in 605. -/
theorem marshal_size_counterexample :
    (∃ bs, ReadReq.MarshalBinary ⟨List.replicate 600 97, []⟩ = Except.ok bs
        ∧ bs.length = 609 ∧ DatagramSize < bs.length)
      ∧ (∃ bs, Err.MarshalBinary ⟨ErrNotFound, List.replicate 600 97⟩ = Except.ok bs
        ∧ bs.length = 605 ∧ DatagramSize < bs.length) := by
  have h1 : ([0, 1] ++ List.replicate 600 (97 : Byte) ++ [0] ++ octet ++ [0]).length = 609 := by
    simp only [List.length_append, List.length_replicate, List.length_cons,
      List.length_nil, octet]
  have h2 : ([0, 5, byte (ErrNotFound / 256), byte ErrNotFound]
      ++ List.replicate 600 (97 : Byte) ++ [0]).length = 605 := by
    simp only [List.length_append, List.length_replicate, List.length_cons,
      List.length_nil]
  refine ⟨⟨[0, 1] ++ List.replicate 600 (97 : Byte) ++ [0] ++ octet ++ [0], ?_, h1, ?_⟩,
    ⟨[0, 5, byte (ErrNotFound / 256), byte ErrNotFound]
      ++ List.replicate 600 (97 : Byte) ++ [0], ?_, h2, ?_⟩⟩
  · rw [readReq_marshal_eq]
    simp only [if_true]
  · rw [h1]
    simp [DatagramSize]
  · rw [err_marshal_eq]
  · rw [h2]
    simp [DatagramSize]

/-! ## Data: successive encodes -/

/-- The payload source after `k` calls: `512 * k` bytes further on. -/
theorem afterCalls_payload (d : Data) (k : Nat) :
    (Data.afterCalls d k).Payload = ⟨d.Payload.buf.drop (512 * k), d.Payload.fin⟩ := by
  induction k with
  | zero => simp [Data.afterCalls]
  | succ k ih =>
    simp only [Data.afterCalls]
    rw [data_marshal_eq, ih]
    simp only [List.drop_drop, Nat.mul_succ]

/-- The counter after `k` calls, seen through the next increment. -/
theorem afterCalls_block (d : Data) (k : Nat) :
    ((Data.afterCalls d k).Block + 1) % 65536 = (d.Block + k + 1) % 65536 := by
  induction k with
  | zero => simp [Data.afterCalls]
  | succ k ih =>
    simp only [Data.afterCalls]
    rw [data_marshal_eq]
    simp only
    omega

/-- The result of call number `k + 1` on a source ending in end-of-input. -/
theorem nthCall_eq (d : Data) (hfin : d.Payload.fin = GoError.EOF) (k : Nat) :
    Data.nthCall d k
      = Except.ok ([0, 3, byte ((d.Block + k + 1) % 65536 / 256),
            byte ((d.Block + k + 1) % 65536)]
          ++ (d.Payload.buf.drop (512 * k)).take 512) := by
  unfold Data.nthCall
  rw [data_marshal_eq, afterCalls_block, afterCalls_payload]
  simp [hfin]

/-- A slice `s[512*k .. min(512*(k+1), len s)]` is the first 512 bytes of what
follows offset `512 * k`. -/
theorem slice_eq_take_drop (s : List Byte) (k : Nat) :
    (s.take (min (512 * (k + 1)) s.length)).drop (512 * k) = (s.drop (512 * k)).take 512 := by
  rw [List.drop_take]
  rcases Nat.le_total (512 * (k + 1)) s.length with h | h
  · rw [Nat.min_eq_left h]
    congr 1
    omega
  · rw [Nat.min_eq_right h]
    rw [List.take_of_length_le, List.take_of_length_le]
    · simp only [List.length_drop]
      omega
    · simp only [List.length_drop]
      omega

/-- The first `K` blocks of 512 bytes, put end to end, are the first `512 * K`
bytes. -/
theorem blocks_flatten (s : List Byte) (K : Nat) :
    ((List.range K).map (fun k => (s.drop (512 * k)).take 512)).flatten = s.take (512 * K) := by
  induction K with
  | zero => simp
  | succ K ih =>
    rw [List.range_succ, List.map_append, List.flatten_append, ih, Nat.mul_succ,
      List.take_add]
    simp

/-- C17. Repeated encoding streams the source in consecutive blocks of 512
bytes: on a source holding the bytes `s` and ending in end-of-input, call
number `k + 1` (for `k = 0, 1, ...`) of `MarshalBinary` on one instance
returns the block number `(b + (k + 1)) mod 65536` followed by exactly
`s[512 * k .. min(512 * (k + 1), len s)]`; the payloads of the first
`ceil(len s / 512)` calls, put end to end, are `s`; a call takes the next 512
bytes at most from the source; and a call on the exhausted source, which it is
after `k` calls when `len s ≤ 512 * k`, returns the 4 bytes of the header with
no payload. -/
theorem data_marshal_streams (d : Data) (hfin : d.Payload.fin = GoError.EOF) :
    (∀ k, Data.nthCall d k
          = Except.ok ([0, 3, byte ((d.Block + (k + 1)) % 65536 / 256),
                byte ((d.Block + (k + 1)) % 65536)]
              ++ (d.Payload.buf.take (min (512 * (k + 1)) d.Payload.buf.length)).drop (512 * k))
        ∧ (byte ((d.Block + (k + 1)) % 65536 / 256)).val * 256
            + (byte ((d.Block + (k + 1)) % 65536)).val = (d.Block + (k + 1)) % 65536)
      ∧ ((List.range ((d.Payload.buf.length + 511) / 512)).map
          (fun k => payloadOf (Data.nthCall d k))).flatten = d.Payload.buf
      ∧ (∀ k, (Data.afterCalls d (k + 1)).Payload.buf
            = (Data.afterCalls d k).Payload.buf.drop 512
          ∧ (Data.afterCalls d k).Payload.buf.length
            ≤ (Data.afterCalls d (k + 1)).Payload.buf.length + 512)
      ∧ (∀ k, (Data.afterCalls d k).Payload.buf = [] →
          Data.nthCall d k
              = Except.ok [0, 3, byte ((d.Block + (k + 1)) % 65536 / 256),
                  byte ((d.Block + (k + 1)) % 65536)]
            ∧ payloadOf (Data.nthCall d k) = [])
      ∧ (∀ k, d.Payload.buf.length ≤ 512 * k → (Data.afterCalls d k).Payload.buf = []) := by
  have hpay : ∀ k, payloadOf (Data.nthCall d k) = (d.Payload.buf.drop (512 * k)).take 512 := by
    intro k
    rw [nthCall_eq d hfin k]
    simp [payloadOf]
  refine ⟨?_, ?_, ?_, ?_, ?_⟩
  · intro k
    refine ⟨?_, byte_hi_lo _ (Nat.mod_lt _ (by decide))⟩
    rw [nthCall_eq d hfin k, slice_eq_take_drop]
    rfl
  · have hfun : (fun k => payloadOf (Data.nthCall d k))
        = fun k => (d.Payload.buf.drop (512 * k)).take 512 := funext hpay
    rw [hfun, blocks_flatten]
    apply List.take_of_length_le
    omega
  · intro k
    rw [afterCalls_payload, afterCalls_payload]
    simp only [List.length_drop, List.drop_drop, Nat.mul_succ]
    exact ⟨trivial, by omega⟩
  · intro k hk
    rw [afterCalls_payload] at hk
    simp only at hk
    refine ⟨?_, ?_⟩
    · rw [nthCall_eq d hfin k, hk]
      rfl
    · rw [hpay, hk]
      rfl
  · intro k hk
    rw [afterCalls_payload]
    simp only [List.drop_eq_nil_iff]
    exact hk

/-- A source of 3 bytes read from the counter 65535: the first call returns
block 0 with the three bytes, the second block 1 with no payload. -/
theorem data_marshal_streams_witness :
    Data.nthCall ⟨65535, NewBuffer [1, 2, 3]⟩ 0 = Except.ok [0, 3, 0, 0, 1, 2, 3]
      ∧ Data.nthCall ⟨65535, NewBuffer [1, 2, 3]⟩ 1 = Except.ok [0, 3, 0, 1] :=
  ⟨((data_marshal_streams ⟨65535, NewBuffer [1, 2, 3]⟩ rfl).1 0).1,
   ((data_marshal_streams ⟨65535, NewBuffer [1, 2, 3]⟩ rfl).2.2.2.1 1 (by decide)).1⟩

/-! ## Data: decode leaves no partial update -/

/-- C18. Data decode is atomic on failure: when `UnmarshalBinary` returns an
error, the receiver, `Block` and `Payload`, is as it was before the call; when
it succeeds, `Block` is the number transmitted in bytes 2 and 3, whatever the
counter was before, and `Payload` is a reader of `p[4..]`. -/
theorem data_unmarshal_atomic (d : Data) (p : List Byte) :
    ((Data.UnmarshalBinary d p).2 ≠ none →
        (Data.UnmarshalBinary d p).1 = d
          ∧ (Data.UnmarshalBinary d p).1.Block = d.Block
          ∧ (Data.UnmarshalBinary d p).1.Payload = d.Payload)
      ∧ ((Data.UnmarshalBinary d p).2 = none →
        (Data.UnmarshalBinary d p).1.Block = (p.getD 2 0).val * 256 + (p.getD 3 0).val
          ∧ (Data.UnmarshalBinary d p).1.Payload = NewBuffer (p.drop 4)) := by
  rw [data_unmarshal_eq]
  by_cases h : 4 ≤ p.length ∧ p.length ≤ 516 ∧ p.take 2 = [0, 3]
  · rw [if_pos h]
    exact ⟨fun hne => absurd rfl hne, fun _ => ⟨rfl, rfl⟩⟩
  · rw [if_neg h]
    refine ⟨fun _ => ⟨rfl, rfl, rfl⟩, fun hc => ?_⟩
    cases hc

/-- An ACK packet given to the Data decoder is refused and the receiver, at
block 7 with two unread bytes, stays as it was. -/
theorem data_unmarshal_atomic_witness :
    (Data.UnmarshalBinary ⟨7, NewBuffer [1, 2]⟩ [0, 4, 0, 9]).1 = ⟨7, NewBuffer [1, 2]⟩
      ∧ (Data.UnmarshalBinary ⟨7, NewBuffer [1, 2]⟩ [0, 4, 0, 9]).1.Block = 7
      ∧ (Data.UnmarshalBinary ⟨7, NewBuffer [1, 2]⟩ [0, 4, 0, 9]).1.Payload
          = NewBuffer [1, 2] :=
  (data_unmarshal_atomic ⟨7, NewBuffer [1, 2]⟩ [0, 4, 0, 9]).1 (by decide)

end Tftp

namespace Middleware

open Tftp (Byte)

/-! # Theorems on the HTTP middleware -/

/-- A loop that makes the call `c` for every piece satisfying `f` makes it once
for each such piece, after the calls made before. -/
theorem foldl_calls (f : List Byte → Bool) (c : Call) (segs : List (List Byte))
    (w : List Call) :
    segs.foldl (fun w p => if f p then w ++ [c] else w) w
      = w ++ (segs.filter f).map (fun _ => c) := by
  induction segs generalizing w with
  | nil => simp
  | cons seg segs ih =>
    simp only [List.foldl_cons, List.filter_cons]
    rw [ih]
    by_cases h : f seg = true
    · simp [h]
    · simp [h]

/-- The calls of the `AllowPrefix` handler, in closed form. -/
theorem allowPrefix_eq (Clean : List Byte → List Byte) (pfx urlPath : List Byte) :
    AllowPrefix Clean pfx urlPath
      = ((SplitSeq (Clean urlPath) slash).filter (fun p => HasPrefix p pfx)).map
          (fun _ => Call.ServeNext) ++ [Call.NotFound] := by
  simp [AllowPrefix, foldl_calls]

/-- The calls of the `RestrictPrefix` handler, in closed form. -/
theorem restrictPrefix_eq (Clean : List Byte → List Byte) (pfx urlPath : List Byte) :
    RestrictPrefix Clean pfx urlPath
      = ((SplitSeq (Clean urlPath) slash).filter (fun p => HasPrefix p pfx)).map
          (fun _ => Call.NotFound) ++ [Call.ServeNext] := by
  simp [RestrictPrefix, foldl_calls]

/-- C19, what the code does. The `AllowPrefix` handler calls `next.ServeHTTP`
once for every piece of the cleaned path that starts with the prefix and then
always calls `http.Error` with 404 Not Found, also after it has forwarded the
request. With no matching piece it makes that one call only. For the prefix
"static" and the path "/static/app.css", which `path.Clean` leaves as it is,
the handler forwards the request and then writes the 404. -/
theorem allowPrefix_forwards_then_404 (Clean : List Byte → List Byte)
    (pfx urlPath : List Byte) :
    AllowPrefix Clean pfx urlPath
        = ((SplitSeq (Clean urlPath) slash).filter (fun p => HasPrefix p pfx)).map
            (fun _ => Call.ServeNext) ++ [Call.NotFound]
      ∧ Call.NotFound ∈ AllowPrefix Clean pfx urlPath
      ∧ ((∀ seg ∈ SplitSeq (Clean urlPath) slash, HasPrefix seg pfx = false) →
          AllowPrefix Clean pfx urlPath = [Call.NotFound])
      ∧ (Clean [47, 115, 116, 97, 116, 105, 99, 47, 97, 112, 112, 46, 99, 115, 115]
            = [47, 115, 116, 97, 116, 105, 99, 47, 97, 112, 112, 46, 99, 115, 115] →
          AllowPrefix Clean [115, 116, 97, 116, 105, 99]
              [47, 115, 116, 97, 116, 105, 99, 47, 97, 112, 112, 46, 99, 115, 115]
            = [Call.ServeNext, Call.NotFound]) := by
  refine ⟨allowPrefix_eq Clean pfx urlPath, ?_, ?_, ?_⟩
  · rw [allowPrefix_eq]
    simp
  · intro h
    rw [allowPrefix_eq]
    have hnil : (SplitSeq (Clean urlPath) slash).filter (fun p => HasPrefix p pfx) = [] := by
      rw [List.filter_eq_nil_iff]
      intro seg hseg
      simp [h seg hseg]
    rw [hnil]
    rfl
  · intro hclean
    rw [allowPrefix_eq, hclean]
    decide

/-- The request for "/static/app.css" under the prefix "static" is forwarded
to `next` and then answered with 404 Not Found. -/
theorem allowPrefix_forwards_then_404_witness :
    AllowPrefix id [115, 116, 97, 116, 105, 99]
        [47, 115, 116, 97, 116, 105, 99, 47, 97, 112, 112, 46, 99, 115, 115]
      = [Call.ServeNext, Call.NotFound] :=
  (allowPrefix_forwards_then_404 id [115, 116, 97, 116, 105, 99]
    [47, 115, 116, 97, 116, 105, 99, 47, 97, 112, 112, 46, 99, 115, 115]).2.2.2 rfl

/-- C20. RestrictPrefix forwards every request: the handler calls `http.Error`
with 404 Not Found once for each piece of the cleaned path that starts with
the prefix and, after these, calls `next.ServeHTTP` exactly once; a request
with a restricted piece in its path is passed to `next` all the same. -/
theorem restrictPrefix_forwards (Clean : List Byte → List Byte) (pfx urlPath : List Byte) :
    RestrictPrefix Clean pfx urlPath
        = List.replicate
            ((SplitSeq (Clean urlPath) slash).countP (fun p => HasPrefix p pfx))
            Call.NotFound ++ [Call.ServeNext]
      ∧ (RestrictPrefix Clean pfx urlPath).count Call.ServeNext = 1
      ∧ (RestrictPrefix Clean pfx urlPath).count Call.NotFound
          = (SplitSeq (Clean urlPath) slash).countP (fun p => HasPrefix p pfx)
      ∧ (RestrictPrefix Clean pfx urlPath).getLast? = some Call.ServeNext
      ∧ ((∃ seg ∈ SplitSeq (Clean urlPath) slash, HasPrefix seg pfx = true) →
          Call.ServeNext ∈ RestrictPrefix Clean pfx urlPath
            ∧ Call.NotFound ∈ RestrictPrefix Clean pfx urlPath) := by
  have hrep : RestrictPrefix Clean pfx urlPath
      = List.replicate
          ((SplitSeq (Clean urlPath) slash).countP (fun p => HasPrefix p pfx))
          Call.NotFound ++ [Call.ServeNext] := by
    rw [restrictPrefix_eq, List.countP_eq_length_filter]
    congr 1
    exact List.map_const' _ _
  refine ⟨hrep, ?_, ?_, ?_, ?_⟩
  · rw [hrep]
    simp [List.count_replicate]
  · rw [hrep]
    simp [List.count_replicate]
  · rw [hrep]
    simp
  · rintro ⟨seg, hseg, hpre⟩
    rw [hrep]
    have hpos : 0 < (SplitSeq (Clean urlPath) slash).countP (fun p => HasPrefix p pfx) :=
      List.countP_pos_iff.mpr ⟨seg, hseg, hpre⟩
    refine ⟨by simp, ?_⟩
    have hne : (SplitSeq (Clean urlPath) slash).countP (fun p => HasPrefix p pfx) ≠ 0 := by
      omega
    simp [hne]

/-- The request for "/.git/config" under the restricted prefix "." is answered
with one 404 Not Found and is passed to `next`. -/
theorem restrictPrefix_forwards_witness :
    RestrictPrefix id [46] [47, 46, 103, 105, 116, 47, 99, 111, 110, 102, 105, 103]
        = [Call.NotFound, Call.ServeNext]
      ∧ Call.ServeNext
          ∈ RestrictPrefix id [46] [47, 46, 103, 105, 116, 47, 99, 111, 110, 102, 105, 103]
      ∧ Call.NotFound
          ∈ RestrictPrefix id [46] [47, 46, 103, 105, 116, 47, 99, 111, 110, 102, 105, 103] :=
  ⟨(restrictPrefix_forwards id [46]
      [47, 46, 103, 105, 116, 47, 99, 111, 110, 102, 105, 103]).1,
   (restrictPrefix_forwards id [46]
      [47, 46, 103, 105, 116, 47, 99, 111, 110, 102, 105, 103]).2.2.2.2
      ⟨[46, 103, 105, 116], by decide, by decide⟩⟩

end Middleware
